import Mathlib

/-!
Verification of the incremental static-site generator in `ssg.py`
(class `SimpleSiteGenerator`).

The filesystem is modelled as a map from paths to optional modification
times (`none` = the path does not exist).  Paths are plain strings and
`os.path.join a b` is modelled as `a ++ "/" ++ b` for the relative,
separator-free components the program uses.  Python dictionaries holding
post metadata are modelled as association lists with unique keys; Python
exceptions are modelled with `Except`.  External collaborators (the
markdown converter and the Jinja template engine) are parameters: loading
a file yields an opaque `Post` and each template is an opaque function.
All definitions are executable so concrete runs can be evaluated.
-/

namespace Ssg

/-- One loaded content source: rendered body plus its metadata mapping
(the `HTMLFile`/markdown object of `ssg.py`). -/
structure Post where
  body : String
  metadata : List (String × String)
deriving DecidableEq

abbrev Metadata := List (String × String)

/-- Filesystem metadata: modification time per path, `none` when the path
does not exist (`os.path.exists` / `os.path.getmtime`). -/
structure FS where
  mtime : String → Option Nat

/-- The constructor arguments of `SimpleSiteGenerator`. -/
structure Config where
  posts_dir : String
  pages_dir : String
  output_dir : String
  templates_dir : String
  static_dir : String
  full_rebuild : Bool

/-- `os.path.join` for the relative path components used by the program. -/
def pjoin (a b : String) : String := a ++ "/" ++ b

/-- Python dict lookup returning `none` when the key is absent
(`d.get(k)` / the test `k in d`).  Metadata dicts have unique keys. -/
def dictGet? (md : Metadata) (k : String) : Option String :=
  match md.find? (fun p => p.1 == k) with
  | some p => some p.2
  | none => none

/-- Python exceptions raised by the code under study. -/
inductive RErr where
  | valueError (msg : String)
  | keyError (key : String)
deriving DecidableEq

/-- `str(e)` for the two exception shapes: `ValueError` prints its
message, `KeyError` prints the `repr` of the key (quoted). -/
def errText : RErr → String
  | .valueError m => m
  | .keyError k => "\x27" ++ k ++ "\x27"

/-- Python dict indexing `d[k]`: raises `KeyError(k)` when absent. -/
def dictGet (md : Metadata) (k : String) : Except RErr String :=
  match dictGet? md k with
  | some v => .ok v
  | none => .error (.keyError k)

instance {ε α : Type} [DecidableEq ε] [DecidableEq α] : DecidableEq (Except ε α) := fun x y =>
  match x, y with
  | .ok a, .ok b =>
    if h : a = b then .isTrue (by rw [h]) else .isFalse (by intro he; cases he; exact h rfl)
  | .error a, .error b =>
    if h : a = b then .isTrue (by rw [h]) else .isFalse (by intro he; cases he; exact h rfl)
  | .ok _, .error _ => .isFalse (by intro h; cases h)
  | .error _, .ok _ => .isFalse (by intro h; cases h)

/-- The dependency scan in `check_for_changes`: walk the source paths in
order; a missing source or a source strictly newer than the output's
modification time `out_m` forces a rebuild. -/
def checkSources (fs : FS) (out_m : Nat) : List String → Bool
  | [] => false
  | src :: rest =>
    match fs.mtime src with
    | none => true
    | some m => if m > out_m then true else checkSources fs out_m rest

/-- `SimpleSiteGenerator.check_for_changes(source_paths, output_path)`.
The Python method also accepts a single string and wraps it into a list;
callers here always pass the list form.  Returns `true` when the output
must be rebuilt. -/
def check_for_changes (full_rebuild : Bool) (fs : FS) (source_paths : List String)
    (output_path : String) : Bool :=
  if full_rebuild then true
  else
    match fs.mtime output_path with
    | none => true
    | some out_m => checkSources fs out_m source_paths

/-- Build events: template-render invocations, file writes and static
copies, in program order. -/
inductive Ev where
  | renderHome
  | renderPage (key : String)
  | renderPost (key : String)
  | renderTag (tag : String)
  | write (path : String) (content : String)
  | copy (src : String) (dst : String)
deriving DecidableEq

/-- Python truthiness of the `source_paths` argument of `write_file`
(`None` and the empty list are falsy). -/
def truthy : Option (List String) → Bool
  | none => false
  | some [] => false
  | some (_ :: _) => true

/-- `SimpleSiteGenerator.write_file(file_path, content, source_paths)`,
as the write events it performs: the write is skipped exactly when
`source_paths` is truthy and `check_for_changes` reports no change. -/
def write_file (cfg : Config) (fs : FS) (file_path content : String)
    (source_paths : Option (List String)) : List Ev :=
  if truthy source_paths &&
      !(check_for_changes cfg.full_rebuild fs (source_paths.getD []) file_path) then []
  else [Ev.write file_path content]

theorem checkSources_of_missing (fs : FS) (out_m : Nat) (deps : List String)
    (h : ∃ d ∈ deps, fs.mtime d = none) : checkSources fs out_m deps = true := by
  induction deps with
  | nil => obtain ⟨d, hd, _⟩ := h; cases hd
  | cons a rest ih =>
    obtain ⟨d, hd, hnone⟩ := h
    simp only [checkSources]
    rcases List.mem_cons.mp hd with heq | hmem
    · subst heq; rw [hnone]
    · cases ha : fs.mtime a with
      | none => rfl
      | some m =>
        by_cases hm : m > out_m
        · simp [hm]
        · simp only [hm, if_false]
          exact ih ⟨d, hmem, hnone⟩

theorem checkSources_all_present (fs : FS) (out_m : Nat) (deps : List String)
    (h : ∀ d ∈ deps, (fs.mtime d).isSome) :
    checkSources fs out_m deps =
      decide (out_m < (deps.filterMap fs.mtime).foldr Nat.max 0) := by
  induction deps with
  | nil => simp [checkSources]
  | cons a rest ih =>
    have ha : (fs.mtime a).isSome := h a (List.mem_cons_self a rest)
    obtain ⟨m, hm⟩ := Option.isSome_iff_exists.mp ha
    have hrest : ∀ d ∈ rest, (fs.mtime d).isSome := fun d hd => h d (List.mem_cons_of_mem a hd)
    simp only [checkSources, hm, List.filterMap_cons, List.foldr_cons]
    by_cases hlt : m > out_m
    · simp only [hlt, if_true]
      have : out_m < Nat.max m (List.foldr Nat.max 0 (List.filterMap fs.mtime rest)) :=
        lt_max_iff.mpr (Or.inl hlt)
      simp [this]
    · simp only [hlt, if_false, ih hrest]
      have hle : ¬ out_m < m := hlt
      by_cases h2 : out_m < List.foldr Nat.max 0 (List.filterMap fs.mtime rest)
      · have : out_m < Nat.max m (List.foldr Nat.max 0 (List.filterMap fs.mtime rest)) :=
          lt_max_iff.mpr (Or.inr h2)
        simp [this, h2]
      · have : ¬ out_m < Nat.max m (List.foldr Nat.max 0 (List.filterMap fs.mtime rest)) := by
          intro hc
          rcases lt_max_iff.mp hc with hc1 | hc2
          · exact hle hc1
          · exact h2 hc2
        simp [this, h2]

/-- C1: the staleness check returns true on the force flag; otherwise true
when the output path does not exist; otherwise true when some dependency
is missing; otherwise (all dependencies present, at least one) true iff
the maximum dependency modification time strictly exceeds the output's. -/
theorem check_for_changes_spec (fr : Bool) (fs : FS) (deps : List String)
    (out : String) (mo : Nat) :
    (fr = true → check_for_changes fr fs deps out = true) ∧
    (fs.mtime out = none → check_for_changes fr fs deps out = true) ∧
    ((∃ d ∈ deps, fs.mtime d = none) → check_for_changes fr fs deps out = true) ∧
    (fr = false → fs.mtime out = some mo → (∀ d ∈ deps, (fs.mtime d).isSome) → deps ≠ [] →
      (check_for_changes fr fs deps out = true ↔
        mo < (deps.filterMap fs.mtime).foldr Nat.max 0)) := by
  refine ⟨fun h => by simp [check_for_changes, h], ?_, ?_, ?_⟩
  · intro h
    cases fr
    · simp [check_for_changes, h]
    · simp [check_for_changes]
  · intro h
    cases fr
    · simp only [check_for_changes, if_neg Bool.false_ne_true]
      cases hout : fs.mtime out
      · rfl
      · exact checkSources_of_missing fs _ deps h
    · simp [check_for_changes]
  · intro hfr hout hall _
    subst hfr
    simp only [check_for_changes, if_neg Bool.false_ne_true, hout,
      checkSources_all_present fs mo deps hall]
    exact decide_eq_true_iff

/-- Concrete witness for C1: one dependency at mtime 7, output at mtime 5. -/
theorem check_for_changes_spec_witness :
    check_for_changes false
      ⟨fun p => if p = "a" then some 7 else if p = "out" then some 5 else none⟩
      ["a"] "out" = true ↔
      5 < ((["a"].filterMap
        (FS.mtime ⟨fun p => if p = "a" then some 7 else if p = "out" then some 5 else none⟩)).foldr
          Nat.max 0) :=
  (check_for_changes_spec false
    ⟨fun p => if p = "a" then some 7 else if p = "out" then some 5 else none⟩
    ["a"] "out" 5).2.2.2 rfl (by decide) (by decide) (by decide)

/-- C6: with the force flag off, the output present, and every dependency
present with modification time exactly equal to the output's, the check
reports no rebuild (the comparison is strict). -/
theorem check_for_changes_equal_mtimes (fs : FS) (deps : List String) (out : String)
    (mo : Nat) (hout : fs.mtime out = some mo) (heq : ∀ d ∈ deps, fs.mtime d = some mo) :
    check_for_changes false fs deps out = false := by
  simp only [check_for_changes, if_neg Bool.false_ne_true, hout]
  induction deps with
  | nil => rfl
  | cons a rest ih =>
    have ha : fs.mtime a = some mo := heq a (List.mem_cons_self a rest)
    simp only [checkSources, ha, lt_irrefl, if_false]
    exact ih (fun d hd => heq d (List.mem_cons_of_mem a hd))

/-- Concrete witness for C6: dependency and output both at mtime 4. -/
theorem check_for_changes_equal_mtimes_witness :
    check_for_changes false
      ⟨fun p => if p = "a" then some 4 else if p = "out" then some 4 else none⟩
      ["a"] "out" = false :=
  check_for_changes_equal_mtimes
    ⟨fun p => if p = "a" then some 4 else if p = "out" then some 4 else none⟩
    ["a"] "out" 4 (by decide) (by decide)

/-- C9: `write_file` with `source_paths = None` or `= []` writes
unconditionally — the staleness check is bypassed, whatever the
filesystem state (in particular when the output is newer than
everything). -/
theorem write_file_falsy_sources (cfg : Config) (fs : FS) (file_path content : String) :
    write_file cfg fs file_path content none = [Ev.write file_path content] ∧
    write_file cfg fs file_path content (some []) = [Ev.write file_path content] := by
  constructor <;> rfl

/-- Does `needle` occur at the start of `hay`?  Helper for the Python
substring test. -/
def isAtStart : List Char → List Char → Bool
  | [], _ => true
  | _ :: _, [] => false
  | a :: as, b :: bs => a == b && isAtStart as bs

/-- Does `needle` occur contiguously anywhere in `hay`? -/
def occursIn (needle : List Char) : List Char → Bool
  | [] => isAtStart needle []
  | b :: bs => isAtStart needle (b :: bs) || occursIn needle bs

/-- Python's `needle in hay` on strings: contiguous substring test. -/
def strIn (needle hay : String) : Bool := occursIn needle.toList hay.toList

/-- Python's `s.split(sep)` for a one-character separator: every
occurrence splits, empty segments kept, `"".split(sep) = [""]`. -/
def splitChars (sep : Char) : List Char → List (List Char)
  | [] => [[]]
  | c :: cs =>
    if c = sep then [] :: splitChars sep cs
    else
      match splitChars sep cs with
      | [] => [[c]]
      | h :: t => (c :: h) :: t

/-- Python's `s.split(sep)` at the `String` level. -/
def pySplit (sep : Char) (s : String) : List String :=
  (splitChars sep s.toList).map List.asString

/-- Python's `s.strip()`: drop leading and trailing whitespace. -/
def pyStrip (s : String) : String :=
  (((s.toList.dropWhile Char.isWhitespace).reverse.dropWhile Char.isWhitespace).reverse).asString

/-- Parse a nonempty all-digit string as a natural number (the digit
fields accepted by `datetime.strptime`). -/
def parseNatChars (l : List Char) : Option Nat :=
  if l ≠ [] ∧ l.all Char.isDigit then
    some (l.foldl (fun a c => a * 10 + (c.toNat - 48)) 0)
  else none

/-- Calendar dates as (year, month, day), compared lexicographically as
`datetime` objects are. -/
abbrev Date := Nat × Nat × Nat

/-- Strict comparison of parsed dates (the `datetime` order). -/
def dateLt (a b : Date) : Bool :=
  a.1 < b.1 || (a.1 == b.1 && (a.2.1 < b.2.1 || (a.2.1 == b.2.1 && a.2.2 < b.2.2)))

/-- `datetime.strptime(s, "%Y-%m-%d")`, modelled as: exactly three
dash-separated nonempty digit fields with the month in 1..12 and the day
in 1..31 (per-month day counts and leap years are abstracted; no claim
depends on them). -/
def parseDate (s : String) : Option Date :=
  match (splitChars (Char.ofNat 45) s.toList) with
  | [y, m, d] =>
    match parseNatChars y, parseNatChars m, parseNatChars d with
    | some yn, some mn, some dn =>
      if 1 ≤ mn ∧ mn ≤ 12 ∧ 1 ≤ dn ∧ dn ≤ 31 then some (yn, mn, dn) else none
    | _, _, _ => none
  | _ => none

/-- Strict lexicographic comparison of character lists by code point
(Python's `<` on `str`). -/
def charsLt : List Char → List Char → Bool
  | [], [] => false
  | [], _ :: _ => true
  | _ :: _, [] => false
  | a :: as, b :: bs => if a < b then true else if a = b then charsLt as bs else false

/-- Python's `<` on strings. -/
def strLt (a b : String) : Bool := charsLt a.toList b.toList

theorem charsLt_irrefl (l : List Char) : charsLt l l = false := by
  induction l with
  | nil => rfl
  | cons a as ih => simp [charsLt, ih]

theorem charsLt_trans {a b c : List Char} (h1 : charsLt a b = true)
    (h2 : charsLt b c = true) : charsLt a c = true := by
  induction a generalizing b c with
  | nil =>
    cases b with
    | nil => cases h1
    | cons y ys =>
      cases c with
      | nil => cases h2
      | cons z zs => rfl
  | cons x xs ih =>
    cases b with
    | nil => cases h1
    | cons y ys =>
      cases c with
      | nil => cases h2
      | cons z zs =>
        simp only [charsLt] at h1 h2 ⊢
        by_cases hxy : x < y
        · by_cases hyz : y < z
          · simp [lt_trans hxy hyz]
          · simp only [hyz, if_false] at h2
            by_cases hyz2 : y = z
            · subst hyz2; simp [hxy]
            · simp [hyz2] at h2
        · simp only [hxy, if_false] at h1
          by_cases hxy2 : x = y
          · subst hxy2
            simp only [if_pos rfl] at h1
            by_cases hxz : x < z
            · simp [hxz]
            · simp only [hxz, if_false] at h2 ⊢
              by_cases hxz2 : x = z
              · subst hxz2
                simp only [if_pos rfl] at h2 ⊢
                exact ih h1 h2
              · simp [hxz2] at h2
          · simp [hxy2] at h1

theorem charsLt_total (a b : List Char) :
    charsLt a b = true ∨ charsLt b a = true ∨ a = b := by
  induction a generalizing b with
  | nil =>
    cases b with
    | nil => exact Or.inr (Or.inr rfl)
    | cons y ys => exact Or.inl rfl
  | cons x xs ih =>
    cases b with
    | nil => exact Or.inr (Or.inl rfl)
    | cons y ys =>
      rcases lt_trichotomy x y with hxy | hxy | hxy
      · exact Or.inl (by simp [charsLt, hxy])
      · subst hxy
        rcases ih ys with h | h | h
        · exact Or.inl (by simp [charsLt, h])
        · exact Or.inr (Or.inl (by simp [charsLt, h]))
        · exact Or.inr (Or.inr (by rw [h]))
      · exact Or.inr (Or.inl (by simp [charsLt, hxy]))

theorem charsLt_asymm {a b : List Char} (h : charsLt a b = true) :
    charsLt b a = false := by
  by_contra hc
  have hba : charsLt b a = true := by
    cases hh : charsLt b a
    · exact absurd hh hc
    · rfl
  have := charsLt_trans h hba
  rw [charsLt_irrefl] at this
  cases this

theorem strLt_asymm {a b : String} (h : strLt a b = true) : strLt b a = false :=
  charsLt_asymm h

theorem strLt_irrefl (a : String) : strLt a a = false := charsLt_irrefl _

theorem strLt_not_lt_trans {a b c : String} (h1 : strLt b a = false)
    (h2 : strLt c b = false) : strLt c a = false := by
  simp only [strLt] at h1 h2 ⊢
  by_contra hc
  have hca : charsLt c.toList a.toList = true := by
    cases hh : charsLt c.toList a.toList
    · exact absurd hh hc
    · rfl
  rcases charsLt_total b.toList a.toList with h | h | h
  · rw [h] at h1; cases h1
  · have := charsLt_trans hca h
    rw [this] at h2; cases h2
  · rw [← h] at hca
    rw [hca] at h2; cases h2

/-- Stable insertion: `x` walks past every `y` with `keep x y = true`
(those stay before it) and lands before the first other element. -/
def insertBy (keep : α → α → Bool) (x : α) : List α → List α
  | [] => [x]
  | y :: ys => if keep x y then y :: insertBy keep x ys else x :: y :: ys

/-- Stable insertion sort driven by the `keep` comparator.  With
`keep x y = (key x < key y)` this is Python's stable
`sorted(..., reverse=True)`; with `keep x y = (y < x)` it is Python's
stable ascending `sorted`. -/
def sortBy (keep : α → α → Bool) : List α → List α
  | [] => []
  | x :: xs => insertBy keep x (sortBy keep xs)

theorem insertBy_perm (keep : α → α → Bool) (x : α) (l : List α) :
    (insertBy keep x l).Perm (x :: l) := by
  induction l with
  | nil => exact List.Perm.refl _
  | cons y ys ih =>
    simp only [insertBy]
    by_cases h : keep x y
    · simp only [h, if_true]
      exact (ih.cons y).trans (List.Perm.swap x y ys)
    · simp [h]

theorem sortBy_perm (keep : α → α → Bool) (l : List α) : (sortBy keep l).Perm l := by
  induction l with
  | nil => exact List.Perm.refl _
  | cons x xs ih => exact (insertBy_perm keep x (sortBy keep xs)).trans (ih.cons x)

theorem insertBy_pairwise {R : α → α → Prop} {keep : α → α → Bool}
    (h1 : ∀ a b, keep a b = true → R b a) (h2 : ∀ a b, keep a b = false → R a b)
    (ht : ∀ a b c, R a b → R b c → R a c) (x : α) {l : List α}
    (hl : l.Pairwise R) : (insertBy keep x l).Pairwise R := by
  induction l with
  | nil => exact List.pairwise_singleton R x
  | cons y ys ih =>
    rcases List.pairwise_cons.mp hl with ⟨hy, hys⟩
    simp only [insertBy]
    by_cases h : keep x y
    · simp only [h, if_true]
      refine List.pairwise_cons.mpr ⟨?_, ih hys⟩
      intro w hw
      rcases List.mem_cons.mp ((insertBy_perm keep x ys).mem_iff.mp hw) with hwx | hwys
      · rw [hwx]; exact h1 x y h
      · exact hy w hwys
    · simp only [h, if_false]
      refine List.pairwise_cons.mpr ⟨?_, hl⟩
      intro w hw
      rcases List.mem_cons.mp hw with hwy | hwys
      · rw [hwy]; exact h2 x y (by simpa using h)
      · exact ht x y w (h2 x y (by simpa using h)) (hy w hwys)

theorem sortBy_pairwise {R : α → α → Prop} {keep : α → α → Bool}
    (h1 : ∀ a b, keep a b = true → R b a) (h2 : ∀ a b, keep a b = false → R a b)
    (ht : ∀ a b c, R a b → R b c → R a c) (l : List α) :
    (sortBy keep l).Pairwise R := by
  induction l with
  | nil => exact List.Pairwise.nil
  | cons x xs ih => exact insertBy_pairwise h1 h2 ht x ih

theorem insertBy_filter_neg {keep : α → α → Bool} {p : α → Bool} {x : α}
    (hx : p x = false) (l : List α) :
    (insertBy keep x l).filter p = l.filter p := by
  induction l with
  | nil => simp [insertBy, hx]
  | cons y ys ih =>
    simp only [insertBy]
    by_cases h : keep x y
    · simp only [h, if_true, List.filter_cons]
      by_cases hy : p y
      · simp [hy, ih]
      · simp only [Bool.not_eq_true] at hy
        simp [hy, ih]
    · simp [h, List.filter_cons, hx]

theorem insertBy_filter_pos {keep : α → α → Bool} {p : α → Bool} {x : α}
    (hx : p x = true) (hkeep : ∀ y, p y = true → keep x y = false) (l : List α) :
    (insertBy keep x l).filter p = x :: l.filter p := by
  induction l with
  | nil => simp [insertBy, hx]
  | cons y ys ih =>
    simp only [insertBy]
    by_cases h : keep x y
    · have hy : p y = false := by
        cases hpy : p y
        · rfl
        · rw [hkeep y hpy] at h; cases h
      simp [h, List.filter_cons, hy, ih]
    · simp [h, List.filter_cons, hx]

/-- Stability of `sortBy`: a class of elements that never displace one
another (`keep` is false inside the class) keeps its original relative
order. -/
theorem sortBy_filter {keep : α → α → Bool} {p : α → Bool}
    (hp : ∀ x y, p x = true → p y = true → keep x y = false) (l : List α) :
    (sortBy keep l).filter p = l.filter p := by
  induction l with
  | nil => rfl
  | cons x xs ih =>
    simp only [sortBy]
    by_cases hx : p x
    · rw [insertBy_filter_pos hx (fun y hy => hp x y hx hy), ih, List.filter_cons_of_pos hx]
    · simp only [Bool.not_eq_true] at hx
      rw [insertBy_filter_neg hx, ih, List.filter_cons_of_neg (by simp [hx])]

/-- Python's `s.endswith(suffix)`. -/
def strEndsWith (s suffix : String) : Bool :=
  isAtStart suffix.toList.reverse s.toList.reverse

/-- The extension filter of `get_posts` / `get_pages`: only `.md` and
`.html` files are loaded. -/
def wantedFile (f : String) : Bool := strEndsWith f ".md" || strEndsWith f ".html"

/-- `get_posts` / `get_pages`: iterate the directory listing (in the
arbitrary order `os.listdir` returns), keep the wanted extensions and
load each file.  Reading the file and converting markup (or synthesizing
metadata for `.html` sources) is the opaque `load` collaborator; the
result keeps the listing order, as Python dict insertion order does. -/
def get_posts (listing : List String) (load : String → Post) : List (String × Post) :=
  (listing.filter wantedFile).map (fun f => (f, load f))

/-- `get_post_date`: read the `date` metadata (KeyError when absent) and
parse it with `datetime.strptime` (ValueError when unparseable). -/
def get_post_date (p : String × Post) : Except RErr Date := do
  let ds ← dictGet p.2.metadata "date"
  match parseDate ds with
  | some d => pure d
  | none =>
    .error (.valueError ("time data \x27" ++ ds ++ "\x27 does not match format \x27%Y-%m-%d\x27"))

/-- Decorate every post with its parsed date, in order, failing at the
first post whose date is missing or unparseable (Python's `sorted`
computes the key of every element before comparing). -/
def date_keys : List (String × Post) → Except RErr (List (Date × (String × Post)))
  | [] => .ok []
  | p :: rest => do
    let d ← get_post_date p
    let r ← date_keys rest
    pure ((d, p) :: r)

/-- `sort_posts`: `sorted(self.posts, key=self.get_post_date,
reverse=True)` — the key is computed for every post (failing at the
first bad date), then a stable descending sort by parsed date reorders
the posts; ties keep their current (insertion) order. -/
def sort_posts (posts : List (String × Post)) : Except RErr (List (String × Post)) := do
  let keyed ← date_keys posts
  pure ((sortBy (fun x y => dateLt x.1 y.1) keyed).map (fun x => x.2))

/-- The variable mapping `render_page` hands to the `page.html` template
(`dict.get` returns `None` for absent keys). -/
structure PageData where
  title : Option String
  slug : Option String
  content : String

/-- The variable mapping `render_post_page` hands to the `post.html`
template. -/
structure PostData where
  title : String
  date : String
  tags : String
  content : String

/-- The Jinja templates, as opaque rendering functions (the template
engine is an external collaborator). -/
structure Templates where
  index : List Metadata → String
  page : PageData → String
  post : PostData → String
  tag : String → List Metadata → String

/-- `render_homepage`: the index template applied to the full sorted
post-metadata list. -/
def render_homepage (T : Templates) (posts : List (String × Post)) : String :=
  T.index (posts.map (fun p => p.2.metadata))

/-- `render_page`: returns `(slug-or-"page", html)`; all metadata is read
with `dict.get`, so a static page never fails here. -/
def render_page (T : Templates) (pg : Post) : String × String :=
  ((dictGet? pg.metadata "slug").getD "page",
    T.page ⟨dictGet? pg.metadata "title", dictGet? pg.metadata "slug", pg.body⟩)

/-- The list comprehension inside `render_tag_page`: the metadata of the
posts whose raw `tags` string contains `tag` as a substring (Python's
`tag in post_content.metadata["tags"]`); indexing `metadata["tags"]`
raises `KeyError` when absent. -/
def posts_with_tag (tag : String) : List (String × Post) → Except RErr (List Metadata)
  | [] => .ok []
  | p :: rest => do
    let tags ← dictGet p.2.metadata "tags"
    let restL ← posts_with_tag tag rest
    pure (if strIn tag tags then p.2.metadata :: restL else restL)

/-- `render_tag_page`: the tag template applied to the tag and the
filtered metadata list. -/
def render_tag_page (T : Templates) (posts : List (String × Post)) (tag : String) :
    Except RErr String := do
  let ps ← posts_with_tag tag posts
  pure (T.tag tag ps)

/-- `render_post_page`: the explicit required-key check covers `title`,
`date` and `slug` (in that order, `ValueError` naming key and post);
building `post_data` then indexes `title`, `date`, `tags` (a missing
`tags` raises a bare `KeyError`); finally the slug is returned. -/
def render_post_page (T : Templates) (post_key : String) (p : Post) :
    Except RErr (String × String) :=
  match ["title", "date", "slug"].find? (fun k => (dictGet? p.metadata k).isNone) with
  | some k => .error (.valueError ("Missing required metadata \x27" ++ k ++ "\x27 in " ++ post_key))
  | none => do
    let title ← dictGet p.metadata "title"
    let date ← dictGet p.metadata "date"
    let tags ← dictGet p.metadata "tags"
    let post_html := T.post ⟨title, date, tags, p.body⟩
    let slug ← dictGet p.metadata "slug"
    pure (slug, post_html)

/-- The label derivation in the `generate_site` posts loop:
`tag.strip() for tag in metadata["tags"].split(",")` — split on commas
and trim each segment; empty segments are kept. -/
def post_labels (tags : String) : List String :=
  (pySplit (Char.ofNat 44) tags).map pyStrip

/-- Modelled from the spec (for comparison with `post_labels`):
`labelsOf(item)` splits `tags` on commas, trims whitespace and drops
empty segments. -/
def labelsOf_spec (tags : String) : List String :=
  ((pySplit (Char.ofNat 44) tags).map pyStrip).filter (fun s => s ≠ "")

/-- The dependency list built for every tag page: tag template, layout
template, and the source path of every post (the code comments this as
"template, layout, and all posts"). -/
def tag_page_sources (cfg : Config) (posts : List (String × Post)) : List String :=
  [pjoin "templates" "tag.html", pjoin "templates" "layout.html"] ++
    posts.map (fun p => pjoin cfg.posts_dir p.1)

/-- One iteration of the pages loop of `generate_site`: render the page
(unconditionally), then write it guarded by the staleness check. -/
def page_events (cfg : Config) (fs : FS) (T : Templates) (pg : String × Post) : List Ev :=
  let sh := render_page T pg.2
  Ev.renderPage pg.1 ::
    write_file cfg fs (pjoin cfg.output_dir (sh.1 ++ ".html")) sh.2
      (some [pjoin cfg.pages_dir pg.1, pjoin "templates" "page.html",
        pjoin "templates" "layout.html"])

/-- The posts loop of `generate_site`: render each post page (may fail),
write it guarded by the staleness check, and accumulate the labels of
every post. -/
def posts_loop (cfg : Config) (fs : FS) (T : Templates) :
    List (String × Post) → Except RErr (List Ev × List String)
  | [] => .ok ([], [])
  | p :: rest => do
    let sh ← render_post_page T p.1 p.2
    let evs := Ev.renderPost p.1 ::
      write_file cfg fs (pjoin cfg.output_dir (pjoin "posts" (sh.1 ++ ".html"))) sh.2
        (some [pjoin cfg.posts_dir p.1, pjoin cfg.templates_dir "post.html",
          pjoin "templates" "layout.html"])
    let tags ← dictGet p.2.metadata "tags"
    let r ← posts_loop cfg fs T rest
    pure (evs ++ r.1, post_labels tags ++ r.2)

/-- The tag-pages loop of `generate_site`: for each tag (in the given
order) render the tag page and write it guarded by the staleness check
against `tag_page_sources`. -/
def tags_loop (cfg : Config) (fs : FS) (T : Templates) (posts : List (String × Post)) :
    List String → Except RErr (List Ev)
  | [] => .ok []
  | t :: rest => do
    let tag_html ← render_tag_page T posts t
    let evs := Ev.renderTag t ::
      write_file cfg fs (pjoin cfg.output_dir (pjoin "tags" (t ++ ".html"))) tag_html
        (some (tag_page_sources cfg posts))
    let r ← tags_loop cfg fs T posts rest
    pure (evs ++ r)

/-- `copy_static`: each file under the static tree is copied when the
single-source staleness check approves. -/
def copy_static (cfg : Config) (fs : FS) (static_listing : List String) : List Ev :=
  static_listing.flatMap (fun rel =>
    let src := pjoin cfg.static_dir rel
    let dst := pjoin (pjoin cfg.output_dir "static") rel
    if check_for_changes cfg.full_rebuild fs [src] dst then [Ev.copy src dst] else [])

/-- `sorted(unique_tags)`: the distinct accumulated labels in ascending
lexicographic order (the Python set keeps one copy of each label). -/
def sorted_tags_of (labels : List String) : List String :=
  sortBy (fun x y => strLt y x) labels.dedup

/-- `generate_site`, as the sequence of build events it performs.
`posts_listing` / `pages_listing` / `static_listing` are the directory
listings the filesystem returns (in `os.listdir` order), `loadPost` /
`loadPage` the opaque file-reading-and-converting collaborators. -/
def generate_site (cfg : Config) (fs : FS) (T : Templates)
    (posts_listing pages_listing static_listing : List String)
    (loadPost loadPage : String → Post) : Except RErr (List Ev) := do
  let layout_path := pjoin "templates" "layout.html"
  let posts ← sort_posts (get_posts posts_listing loadPost)
  let pages := get_posts pages_listing loadPage
  let home_html := render_homepage T posts
  let homeEvs := Ev.renderHome ::
    write_file cfg fs (pjoin cfg.output_dir "index.html") home_html
      (some [pjoin "templates" "index.html", layout_path])
  let pageEvs := pages.flatMap (page_events cfg fs T)
  let pr ← posts_loop cfg fs T posts
  let tagEvs ← tags_loop cfg fs T posts (sorted_tags_of pr.2)
  pure (homeEvs ++ pageEvs ++ pr.1 ++ tagEvs ++ copy_static cfg fs static_listing)

/-- The paths of the write events of a trace, in order. -/
def writesOf (l : List Ev) : List String :=
  l.filterMap (fun e => match e with | .write p _ => some p | _ => none)

/-- The tags whose pages were rendered, in order. -/
def renderTags (l : List Ev) : List String :=
  l.filterMap (fun e => match e with | .renderTag t => some t | _ => none)

/-- Is an event a template-render invocation? -/
def isRender : Ev → Bool
  | .renderHome => true
  | .renderPage _ => true
  | .renderPost _ => true
  | .renderTag _ => true
  | .write _ _ => false
  | .copy _ _ => false

/-- The render invocations of a trace, in order. -/
def rendersOf (l : List Ev) : List Ev := l.filter isRender

/-- The slug a successfully rendered post page uses for its output path. -/
def post_slug (p : String × Post) : String := (dictGet? p.2.metadata "slug").getD ""

/-- The slug a page uses for its output path (`dict.get` default "page"). -/
def page_slug (p : String × Post) : String := (dictGet? p.2.metadata "slug").getD "page"

/-- Every templated output spec of one run, in program order: output path
paired with the dependency list handed to the staleness check. -/
def site_specs (cfg : Config) (posts pages : List (String × Post))
    (sorted_tags : List String) : List (String × List String) :=
  (pjoin cfg.output_dir "index.html",
      [pjoin "templates" "index.html", pjoin "templates" "layout.html"]) ::
    pages.map (fun pg => (pjoin cfg.output_dir (page_slug pg ++ ".html"),
      [pjoin cfg.pages_dir pg.1, pjoin "templates" "page.html",
        pjoin "templates" "layout.html"])) ++
    posts.map (fun p => (pjoin cfg.output_dir (pjoin "posts" (post_slug p ++ ".html")),
      [pjoin cfg.posts_dir p.1, pjoin cfg.templates_dir "post.html",
        pjoin "templates" "layout.html"])) ++
    sorted_tags.map (fun t => (pjoin cfg.output_dir (pjoin "tags" (t ++ ".html")),
      tag_page_sources cfg posts))

/-- All labels accumulated by the posts loop over a (sorted) post list,
in order, duplicates included. -/
def all_labels (posts : List (String × Post)) : List String :=
  posts.flatMap (fun p => post_labels ((dictGet? p.2.metadata "tags").getD ""))

/-- The render invocations a successful run performs: homepage, every
page, every post, every tag page — independent of the filesystem state
and of the force flag. -/
def expected_renders (posts pages : List (String × Post)) (tags : List String) : List Ev :=
  Ev.renderHome ::
    (pages.map (fun pg => Ev.renderPage pg.1) ++ posts.map (fun p => Ev.renderPost p.1) ++
      tags.map Ev.renderTag)

theorem rendersOf_append (a b : List Ev) :
    rendersOf (a ++ b) = rendersOf a ++ rendersOf b :=
  List.filter_append a b

theorem writesOf_append (a b : List Ev) :
    writesOf (a ++ b) = writesOf a ++ writesOf b :=
  List.filterMap_append a b _

theorem renderTags_append (a b : List Ev) :
    renderTags (a ++ b) = renderTags a ++ renderTags b :=
  List.filterMap_append a b _

theorem rendersOf_write_file (cfg : Config) (fs : FS) (path content : String)
    (sp : Option (List String)) : rendersOf (write_file cfg fs path content sp) = [] := by
  unfold write_file
  by_cases h : truthy sp && !(check_for_changes cfg.full_rebuild fs (sp.getD []) path)
  · simp [h, rendersOf]
  · simp [h, rendersOf, List.filter, isRender]

theorem renderTags_write_file (cfg : Config) (fs : FS) (path content : String)
    (sp : Option (List String)) : renderTags (write_file cfg fs path content sp) = [] := by
  unfold write_file
  by_cases h : truthy sp && !(check_for_changes cfg.full_rebuild fs (sp.getD []) path)
  · simp [h, renderTags]
  · simp [h, renderTags, List.filterMap]

theorem writesOf_write_file_cons (cfg : Config) (fs : FS) (path content d : String)
    (ds : List String) :
    writesOf (write_file cfg fs path content (some (d :: ds))) =
      if check_for_changes cfg.full_rebuild fs (d :: ds) path then [path] else [] := by
  unfold write_file
  by_cases h : check_for_changes cfg.full_rebuild fs (d :: ds) path
  · simp [h, truthy, writesOf, List.filterMap]
  · simp [h, truthy, writesOf]

theorem rendersOf_copy_static (cfg : Config) (fs : FS) (l : List String) :
    rendersOf (copy_static cfg fs l) = [] := by
  induction l with
  | nil => rfl
  | cons a rest ih =>
    simp only [copy_static, List.flatMap_cons] at ih ⊢
    rw [rendersOf_append, ih]
    by_cases h : check_for_changes cfg.full_rebuild fs [pjoin cfg.static_dir a]
        (pjoin (pjoin cfg.output_dir "static") a)
    · simp [h, rendersOf, List.filter, isRender]
    · simp [h, rendersOf]

theorem renderTags_copy_static (cfg : Config) (fs : FS) (l : List String) :
    renderTags (copy_static cfg fs l) = [] := by
  induction l with
  | nil => rfl
  | cons a rest ih =>
    simp only [copy_static, List.flatMap_cons] at ih ⊢
    rw [renderTags_append, ih]
    by_cases h : check_for_changes cfg.full_rebuild fs [pjoin cfg.static_dir a]
        (pjoin (pjoin cfg.output_dir "static") a)
    · simp [h, renderTags, List.filterMap]
    · simp [h, renderTags]

theorem writesOf_copy_static (cfg : Config) (fs : FS) (l : List String) :
    writesOf (copy_static cfg fs l) = [] := by
  induction l with
  | nil => rfl
  | cons a rest ih =>
    simp only [copy_static, List.flatMap_cons] at ih ⊢
    rw [writesOf_append, ih]
    by_cases h : check_for_changes cfg.full_rebuild fs [pjoin cfg.static_dir a]
        (pjoin (pjoin cfg.output_dir "static") a)
    · simp [h, writesOf, List.filterMap]
    · simp [h, writesOf]

theorem rendersOf_page_events (cfg : Config) (fs : FS) (T : Templates) (pages : List (String × Post)) :
    rendersOf (pages.flatMap (page_events cfg fs T)) =
      pages.map (fun pg => Ev.renderPage pg.1) := by
  induction pages with
  | nil => rfl
  | cons pg rest ih =>
    simp only [List.flatMap_cons, List.map_cons]
    rw [rendersOf_append, ih, page_events]
    simp only [rendersOf, List.filter_cons]
    have h0 : List.filter isRender (write_file cfg fs
        (pjoin cfg.output_dir ((render_page T pg.2).1 ++ ".html")) (render_page T pg.2).2
        (some [pjoin cfg.pages_dir pg.1, pjoin "templates" "page.html",
          pjoin "templates" "layout.html"])) = [] := rendersOf_write_file ..
    rw [h0]
    simp [isRender]

theorem renderTags_page_events (cfg : Config) (fs : FS) (T : Templates)
    (pages : List (String × Post)) :
    renderTags (pages.flatMap (page_events cfg fs T)) = [] := by
  induction pages with
  | nil => rfl
  | cons pg rest ih =>
    simp only [List.flatMap_cons]
    rw [renderTags_append, ih, page_events]
    simp only [renderTags, List.filterMap_cons]
    have h0 : List.filterMap (fun e => match e with | Ev.renderTag t => some t | _ => none)
        (write_file cfg fs
          (pjoin cfg.output_dir ((render_page T pg.2).1 ++ ".html")) (render_page T pg.2).2
          (some [pjoin cfg.pages_dir pg.1, pjoin "templates" "page.html",
            pjoin "templates" "layout.html"])) = [] := renderTags_write_file ..
    rw [h0]
    rfl

theorem writesOf_page_events (cfg : Config) (fs : FS) (T : Templates)
    (pages : List (String × Post)) :
    writesOf (pages.flatMap (page_events cfg fs T)) =
      ((pages.map (fun pg => (pjoin cfg.output_dir (page_slug pg ++ ".html"),
          [pjoin cfg.pages_dir pg.1, pjoin "templates" "page.html",
            pjoin "templates" "layout.html"]))).filter
        (fun s => check_for_changes cfg.full_rebuild fs s.2 s.1)).map (fun s => s.1) := by
  induction pages with
  | nil => rfl
  | cons pg rest ih =>
    simp only [List.flatMap_cons, List.map_cons, List.filter_cons]
    rw [writesOf_append, ih, page_events]
    simp only [writesOf, List.filterMap_cons]
    have hslug : (render_page T pg.2).1 = page_slug pg := rfl
    have h0 : List.filterMap (fun e => match e with | Ev.write p _ => some p | _ => none)
        (write_file cfg fs (pjoin cfg.output_dir ((render_page T pg.2).1 ++ ".html"))
          (render_page T pg.2).2
          (some [pjoin cfg.pages_dir pg.1, pjoin "templates" "page.html",
            pjoin "templates" "layout.html"])) =
        (if check_for_changes cfg.full_rebuild fs
            [pjoin cfg.pages_dir pg.1, pjoin "templates" "page.html",
              pjoin "templates" "layout.html"]
            (pjoin cfg.output_dir ((render_page T pg.2).1 ++ ".html")) then
          [pjoin cfg.output_dir ((render_page T pg.2).1 ++ ".html")] else []) :=
      writesOf_write_file_cons ..
    rw [h0, hslug]
    by_cases h : check_for_changes cfg.full_rebuild fs
        [pjoin cfg.pages_dir pg.1, pjoin "templates" "page.html",
          pjoin "templates" "layout.html"] (pjoin cfg.output_dir (page_slug pg ++ ".html"))
    · simp [h]
    · simp [h]

theorem dictGet_ok {md : Metadata} {k v : String} :
    dictGet md k = .ok v ↔ dictGet? md k = some v := by
  unfold dictGet
  cases h : dictGet? md k <;> simp

theorem render_post_page_ok_slug {T : Templates} {k : String} {p : Post}
    {sh : String × String} (h : render_post_page T k p = .ok sh) :
    sh.1 = post_slug (k, p) := by
  unfold render_post_page at h
  cases hfind : List.find? (fun k => (dictGet? p.metadata k).isNone) ["title", "date", "slug"] with
  | some k0 => rw [hfind] at h; cases h
  | none =>
    rw [hfind] at h
    simp only [bind, Except.bind] at h
    cases h1 : dictGet p.metadata "title" with
    | error e => rw [h1] at h; cases h
    | ok title =>
      rw [h1] at h
      cases h2 : dictGet p.metadata "date" with
      | error e => rw [h2] at h; cases h
      | ok date =>
        rw [h2] at h
        cases h3 : dictGet p.metadata "tags" with
        | error e => rw [h3] at h; cases h
        | ok tags =>
          rw [h3] at h
          cases h4 : dictGet p.metadata "slug" with
          | error e => rw [h4] at h; cases h
          | ok slug =>
            rw [h4] at h
            simp only [pure, Except.pure, Except.ok.injEq] at h
            rw [← h]
            simp only [post_slug]
            rw [dictGet_ok.mp h4]
            rfl

theorem posts_loop_ok {cfg : Config} {fs : FS} {T : Templates} {posts : List (String × Post)}
    {evs : List Ev} {acc : List String} (h : posts_loop cfg fs T posts = .ok (evs, acc)) :
    rendersOf evs = posts.map (fun p => Ev.renderPost p.1) ∧
    renderTags evs = [] ∧
    acc = all_labels posts ∧
    writesOf evs = ((posts.map (fun p =>
        (pjoin cfg.output_dir (pjoin "posts" (post_slug p ++ ".html")),
          [pjoin cfg.posts_dir p.1, pjoin cfg.templates_dir "post.html",
            pjoin "templates" "layout.html"]))).filter
      (fun s => check_for_changes cfg.full_rebuild fs s.2 s.1)).map (fun s => s.1) := by
  induction posts generalizing evs acc with
  | nil =>
    simp only [posts_loop] at h
    cases h
    exact ⟨rfl, rfl, rfl, rfl⟩
  | cons p rest ih =>
    simp only [posts_loop, bind, Except.bind] at h
    cases hr : render_post_page T p.1 p.2 with
    | error e => rw [hr] at h; cases h
    | ok sh =>
      rw [hr] at h
      cases ht : dictGet p.2.metadata "tags" with
      | error e => rw [ht] at h; cases h
      | ok tags =>
        rw [ht] at h
        cases hrest : posts_loop cfg fs T rest with
        | error e => rw [hrest] at h; cases h
        | ok pr =>
          rw [hrest] at h
          simp only [pure, Except.pure, Except.ok.injEq, Prod.mk.injEq] at h
          obtain ⟨hevs, hacc⟩ := h
          obtain ⟨ih1, ih2, ih3, ih4⟩ := ih hrest
          have hslug : sh.1 = post_slug p := by
            have := render_post_page_ok_slug hr
            simpa using this
          have htags : (dictGet? p.2.metadata "tags").getD "" = tags := by
            rw [dictGet_ok.mp ht]
            rfl
          refine ⟨?_, ?_, ?_, ?_⟩
          · rw [← hevs, rendersOf]
            simp only [List.cons_append, List.filter_cons]
            have h0 : List.filter isRender (write_file cfg fs
                (pjoin cfg.output_dir (pjoin "posts" (sh.1 ++ ".html"))) sh.2
                (some [pjoin cfg.posts_dir p.1, pjoin cfg.templates_dir "post.html",
                  pjoin "templates" "layout.html"]) ++ pr.1) =
                [] ++ rendersOf pr.1 := by
              rw [List.filter_append]
              have := rendersOf_write_file cfg fs
                (pjoin cfg.output_dir (pjoin "posts" (sh.1 ++ ".html"))) sh.2
                (some [pjoin cfg.posts_dir p.1, pjoin cfg.templates_dir "post.html",
                  pjoin "templates" "layout.html"])
              rw [rendersOf] at this
              rw [this]
              rfl
            rw [h0, ih1]
            simp [isRender]
          · rw [← hevs, renderTags]
            simp only [List.cons_append, List.filterMap_cons]
            rw [List.filterMap_append]
            have := renderTags_write_file cfg fs
              (pjoin cfg.output_dir (pjoin "posts" (sh.1 ++ ".html"))) sh.2
              (some [pjoin cfg.posts_dir p.1, pjoin cfg.templates_dir "post.html",
                pjoin "templates" "layout.html"])
            rw [renderTags] at this
            rw [this]
            have h2 : List.filterMap (fun e => match e with | Ev.renderTag t => some t | _ => none)
                pr.1 = [] := ih2
            rw [h2]
            rfl
          · rw [← hacc, ih3]
            simp only [all_labels, List.flatMap_cons, htags]
          · rw [← hevs, writesOf]
            simp only [List.cons_append, List.filterMap_cons]
            rw [List.filterMap_append]
            have hw := writesOf_write_file_cons cfg fs
              (pjoin cfg.output_dir (pjoin "posts" (sh.1 ++ ".html"))) sh.2
              (pjoin cfg.posts_dir p.1)
              [pjoin cfg.templates_dir "post.html", pjoin "templates" "layout.html"]
            rw [writesOf] at hw
            rw [hw, hslug]
            have h4 : List.filterMap (fun e => match e with | Ev.write q _ => some q | _ => none)
                pr.1 = writesOf pr.1 := rfl
            rw [h4, ih4]
            simp only [List.map_cons, List.filter_cons]
            by_cases hc : check_for_changes cfg.full_rebuild fs
                [pjoin cfg.posts_dir p.1, pjoin cfg.templates_dir "post.html",
                  pjoin "templates" "layout.html"]
                (pjoin cfg.output_dir (pjoin "posts" (post_slug p ++ ".html")))
            · simp [hc]
            · simp [hc]

theorem tags_loop_ok {cfg : Config} {fs : FS} {T : Templates} {posts : List (String × Post)}
    {tags : List String} {evs : List Ev} (h : tags_loop cfg fs T posts tags = .ok evs) :
    rendersOf evs = tags.map Ev.renderTag ∧
    renderTags evs = tags ∧
    writesOf evs = ((tags.map (fun t =>
        (pjoin cfg.output_dir (pjoin "tags" (t ++ ".html")), tag_page_sources cfg posts))).filter
      (fun s => check_for_changes cfg.full_rebuild fs s.2 s.1)).map (fun s => s.1) := by
  induction tags generalizing evs with
  | nil =>
    simp only [tags_loop] at h
    cases h
    exact ⟨rfl, rfl, rfl⟩
  | cons t rest ih =>
    simp only [tags_loop, bind, Except.bind] at h
    cases hr : render_tag_page T posts t with
    | error e => rw [hr] at h; cases h
    | ok tag_html =>
      rw [hr] at h
      cases hrest : tags_loop cfg fs T posts rest with
      | error e => rw [hrest] at h; cases h
      | ok evs2 =>
        rw [hrest] at h
        simp only [pure, Except.pure, Except.ok.injEq] at h
        obtain ⟨ih1, ih2, ih3⟩ := ih hrest
        have hds : pjoin "templates" "tag.html" :: pjoin "templates" "layout.html" ::
            posts.map (fun q => pjoin cfg.posts_dir q.1) = tag_page_sources cfg posts := rfl
        refine ⟨?_, ?_, ?_⟩
        · rw [← h, rendersOf]
          simp only [List.cons_append, List.filter_cons]
          rw [List.filter_append]
          have := rendersOf_write_file cfg fs
            (pjoin cfg.output_dir (pjoin "tags" (t ++ ".html"))) tag_html
            (some (tag_page_sources cfg posts))
          rw [rendersOf] at this
          rw [this]
          have h1 : List.filter isRender evs2 = rendersOf evs2 := rfl
          rw [h1, ih1]
          simp [isRender]
        · rw [← h, renderTags]
          simp only [List.cons_append, List.filterMap_cons]
          rw [List.filterMap_append]
          have := renderTags_write_file cfg fs
            (pjoin cfg.output_dir (pjoin "tags" (t ++ ".html"))) tag_html
            (some (tag_page_sources cfg posts))
          rw [renderTags] at this
          rw [this]
          have h2 : List.filterMap (fun e => match e with | Ev.renderTag u => some u | _ => none)
              evs2 = renderTags evs2 := rfl
          rw [h2, ih2]
          rfl
        · rw [← h, writesOf]
          simp only [List.cons_append, List.filterMap_cons]
          rw [List.filterMap_append]
          have hw := writesOf_write_file_cons cfg fs
            (pjoin cfg.output_dir (pjoin "tags" (t ++ ".html"))) tag_html
            (pjoin "templates" "tag.html")
            (pjoin "templates" "layout.html" :: posts.map (fun q => pjoin cfg.posts_dir q.1))
          rw [hds] at hw
          rw [writesOf] at hw
          rw [hw]
          have h4 : List.filterMap (fun e => match e with | Ev.write q _ => some q | _ => none)
              evs2 = writesOf evs2 := rfl
          rw [h4, ih3]
          simp only [List.map_cons, List.filter_cons]
          by_cases hc : check_for_changes cfg.full_rebuild fs (tag_page_sources cfg posts)
              (pjoin cfg.output_dir (pjoin "tags" (t ++ ".html")))
          · simp [hc]
          · simp [hc]

theorem rendersOf_home_cons (l : List Ev) :
    rendersOf (Ev.renderHome :: l) = Ev.renderHome :: rendersOf l := by
  simp [rendersOf, List.filter_cons, isRender]

theorem renderTags_home_cons (l : List Ev) :
    renderTags (Ev.renderHome :: l) = renderTags l := by
  simp [renderTags, List.filterMap_cons]

theorem writesOf_home_cons (l : List Ev) :
    writesOf (Ev.renderHome :: l) = writesOf l := by
  simp [writesOf, List.filterMap_cons]

theorem generate_site_eq (cfg : Config) (fs : FS) (T : Templates)
    (pl gl sl : List String) (lp lg : String → Post) :
    generate_site cfg fs T pl gl sl lp lg =
      Except.bind (sort_posts (get_posts pl lp)) (fun posts =>
        Except.bind (posts_loop cfg fs T posts) (fun pr =>
          Except.bind (tags_loop cfg fs T posts (sorted_tags_of pr.2)) (fun tagEvs =>
            Except.ok (
              (Ev.renderHome :: write_file cfg fs (pjoin cfg.output_dir "index.html")
                (render_homepage T posts)
                (some [pjoin "templates" "index.html", pjoin "templates" "layout.html"])) ++
              (get_posts gl lg).flatMap (page_events cfg fs T) ++
              pr.1 ++ tagEvs ++ copy_static cfg fs sl)))) := rfl

theorem generate_site_ok {cfg : Config} {fs : FS} {T : Templates}
    {pl gl sl : List String} {lp lg : String → Post} {t : List Ev}
    (h : generate_site cfg fs T pl gl sl lp lg = .ok t) :
    ∃ posts, sort_posts (get_posts pl lp) = .ok posts ∧
      rendersOf t =
        expected_renders posts (get_posts gl lg) (sorted_tags_of (all_labels posts)) ∧
      renderTags t = sorted_tags_of (all_labels posts) ∧
      writesOf t = ((site_specs cfg posts (get_posts gl lg)
          (sorted_tags_of (all_labels posts))).filter
        (fun s => check_for_changes cfg.full_rebuild fs s.2 s.1)).map (fun s => s.1) := by
  rw [generate_site_eq] at h
  cases hs : sort_posts (get_posts pl lp) with
  | error e => rw [hs] at h; cases h
  | ok posts =>
    rw [hs] at h
    simp only [Except.bind] at h
    cases hpr : posts_loop cfg fs T posts with
    | error e => rw [hpr] at h; cases h
    | ok pr =>
      rw [hpr] at h
      simp only [Except.bind] at h
      cases htg : tags_loop cfg fs T posts (sorted_tags_of pr.2) with
      | error e => rw [htg] at h; cases h
      | ok tagEvs =>
        rw [htg] at h
        simp only [Except.bind, Except.ok.injEq] at h
        obtain ⟨hpr1, hpr2, hpr3, hpr4⟩ := posts_loop_ok hpr
        rw [hpr3] at htg
        obtain ⟨htg1, htg2, htg3⟩ := tags_loop_ok htg
        have hwfr : rendersOf (write_file cfg fs (pjoin cfg.output_dir "index.html")
            (render_homepage T posts)
            (some [pjoin "templates" "index.html", pjoin "templates" "layout.html"])) = [] :=
          rendersOf_write_file ..
        have hwft : renderTags (write_file cfg fs (pjoin cfg.output_dir "index.html")
            (render_homepage T posts)
            (some [pjoin "templates" "index.html", pjoin "templates" "layout.html"])) = [] :=
          renderTags_write_file ..
        have hwfw : writesOf (write_file cfg fs (pjoin cfg.output_dir "index.html")
            (render_homepage T posts)
            (some [pjoin "templates" "index.html", pjoin "templates" "layout.html"])) =
            if check_for_changes cfg.full_rebuild fs
                [pjoin "templates" "index.html", pjoin "templates" "layout.html"]
                (pjoin cfg.output_dir "index.html") then
              [pjoin cfg.output_dir "index.html"] else [] :=
          writesOf_write_file_cons ..
        refine ⟨posts, rfl, ?_, ?_, ?_⟩
        · rw [← h]
          simp only [List.cons_append]
          rw [rendersOf_home_cons]
          rw [rendersOf_append, rendersOf_append, rendersOf_append, rendersOf_append]
          rw [hwfr, rendersOf_page_events, hpr1, htg1, rendersOf_copy_static]
          simp [expected_renders]
        · rw [← h]
          simp only [List.cons_append]
          rw [renderTags_home_cons]
          rw [renderTags_append, renderTags_append, renderTags_append, renderTags_append]
          rw [hwft, renderTags_page_events, hpr2, htg2, renderTags_copy_static]
          simp
        · rw [← h]
          simp only [List.cons_append]
          rw [writesOf_home_cons]
          rw [writesOf_append, writesOf_append, writesOf_append, writesOf_append]
          rw [hwfw, writesOf_page_events, hpr4, htg3, writesOf_copy_static]
          simp only [site_specs, List.cons_append, List.filter_append, List.map_append,
            List.filter_cons]
          by_cases hc : check_for_changes cfg.full_rebuild fs
              [pjoin "templates" "index.html", pjoin "templates" "layout.html"]
              (pjoin cfg.output_dir "index.html")
          · simp [hc]
          · simp [hc]

theorem dateLt_irrefl (a : Date) : dateLt a a = false := by
  simp [dateLt]

theorem dateLt_asymm {a b : Date} (h : dateLt a b = true) : dateLt b a = false := by
  simp only [dateLt, Bool.or_eq_true, Bool.and_eq_true, decide_eq_true_eq, beq_iff_eq,
    Bool.or_eq_false_iff, Bool.and_eq_false_iff, decide_eq_false_iff_not, beq_eq_false_iff_ne]
    at h ⊢
  omega

theorem dateLt_false_trans {a b c : Date} (h1 : dateLt a b = false)
    (h2 : dateLt b c = false) : dateLt a c = false := by
  simp only [dateLt, Bool.or_eq_true, Bool.and_eq_true, decide_eq_true_eq, beq_iff_eq,
    Bool.or_eq_false_iff, Bool.and_eq_false_iff, decide_eq_false_iff_not, beq_eq_false_iff_ne]
    at h1 h2 ⊢
  omega

theorem sorted_tags_of_nodup (l : List String) : (sorted_tags_of l).Nodup :=
  (sortBy_perm (fun x y => strLt y x) l.dedup).nodup_iff.mpr (List.nodup_dedup l)

theorem sorted_tags_of_mem (l : List String) (x : String) :
    x ∈ sorted_tags_of l ↔ x ∈ l :=
  ((sortBy_perm (fun x y => strLt y x) l.dedup).mem_iff).trans (List.mem_dedup)

theorem sorted_tags_of_sorted (l : List String) :
    (sorted_tags_of l).Pairwise (fun a b => strLt a b = true) := by
  have hle : (sorted_tags_of l).Pairwise (fun a b => strLt b a = false) := by
    refine sortBy_pairwise ?_ ?_ ?_ l.dedup
    · intro a b h
      exact strLt_asymm h
    · intro a b h
      exact h
    · intro a b c h1 h2
      exact strLt_not_lt_trans h1 h2
  have hne : (sorted_tags_of l).Pairwise (fun a b => a ≠ b) := sorted_tags_of_nodup l
  refine (hle.and hne).imp ?_
  intro a b hab
  obtain ⟨hlt, hne2⟩ := hab
  rcases charsLt_total a.toList b.toList with h | h | h
  · exact h
  · rw [strLt] at hlt
    rw [h] at hlt
    cases hlt
  · exact absurd (String.toList_inj.mp h) hne2

/-- Concrete templates that render everything to the empty string (the
engine's output is irrelevant to the control flow under study). -/
def tpl0 : Templates := ⟨fun _ => "", fun _ => "", fun _ => "", fun _ _ => ""⟩

/-- Concrete generator configuration with the default directory names and
the force flag off. -/
def cfg0 : Config := ⟨"posts", "pages", "output", "templates", "static", false⟩

/-- A filesystem on which nothing exists yet (first build). -/
def fsNone : FS := ⟨fun _ => none⟩

/-- Loader producing one well-formed post tagged `a`. -/
def load1 : String → Post := fun _ =>
  ⟨"body", [("title", "T"), ("date", "2024-01-01"), ("slug", "s"), ("tags", "a")]⟩

/-- A filesystem on which every source of the one-post site has
modification time 1 and every output already exists with modification
time 2: everything is fresh, nothing is stale. -/
def fsFresh : FS := ⟨fun p =>
  if p = "posts/p.md" ∨ p = "templates/index.html" ∨ p = "templates/layout.html" ∨
      p = "templates/post.html" ∨ p = "templates/tag.html" then some 1
  else if p = "output/index.html" ∨ p = "output/posts/s.html" ∨ p = "output/tags/a.html" then
    some 2
  else none⟩

/-- C2 counterexample: on a one-post site where the force flag is off and
every dependency's modification time (1) is below every output's (2),
the build still invokes the homepage, post and tag-page render functions
— the trace consists of exactly those three render events (and performs
no write).  The claim that the render function is never invoked for a
fresh output is false. -/
theorem generate_site_renders_when_fresh_cex :
    fsFresh.mtime "posts/p.md" = some 1 ∧
    fsFresh.mtime "templates/post.html" = some 1 ∧
    fsFresh.mtime "templates/layout.html" = some 1 ∧
    fsFresh.mtime "output/posts/s.html" = some 2 ∧
    cfg0.full_rebuild = false ∧
    check_for_changes cfg0.full_rebuild fsFresh
      ["posts/p.md", "templates/post.html", "templates/layout.html"]
      "output/posts/s.html" = false ∧
    generate_site cfg0 fsFresh tpl0 ["p.md"] [] [] load1 load1 =
      .ok [Ev.renderHome, Ev.renderPost "p.md", Ev.renderTag "a"] ∧
    Ev.renderPost "p.md" ∈ [Ev.renderHome, Ev.renderPost "p.md", Ev.renderTag "a"] := by
  refine ⟨rfl, rfl, rfl, rfl, rfl, by decide, by decide, by decide⟩

/-- C2 (amended): the render functions are evaluated for every output
spec unconditionally — the renders of a successful run are exactly
homepage, every page, every post and every tag page, independent of the
filesystem and of the force flag — and it is the file writes that are
gated by the staleness check: the writes are exactly the output paths of
the specs the check approves. -/
theorem generate_site_renders_eager_writes_lazy (cfg : Config) (fs : FS) (T : Templates)
    (pl gl sl : List String) (lp lg : String → Post) (t : List Ev)
    (posts : List (String × Post))
    (hs : sort_posts (get_posts pl lp) = .ok posts)
    (h : generate_site cfg fs T pl gl sl lp lg = .ok t) :
    rendersOf t = expected_renders posts (get_posts gl lg) (sorted_tags_of (all_labels posts)) ∧
    writesOf t = ((site_specs cfg posts (get_posts gl lg)
        (sorted_tags_of (all_labels posts))).filter
      (fun s => check_for_changes cfg.full_rebuild fs s.2 s.1)).map (fun s => s.1) := by
  obtain ⟨posts2, h1, h2, h3, h4⟩ := generate_site_ok h
  injection (hs.symm.trans h1) with he
  rw [he]
  exact ⟨h2, h4⟩

/-- Witness for the amended C2 on the concrete fresh one-post site. -/
theorem generate_site_renders_eager_writes_lazy_witness :
    rendersOf [Ev.renderHome, Ev.renderPost "p.md", Ev.renderTag "a"] =
      expected_renders [("p.md", load1 "p.md")] []
        (sorted_tags_of (all_labels [("p.md", load1 "p.md")])) ∧
    writesOf [Ev.renderHome, Ev.renderPost "p.md", Ev.renderTag "a"] =
      ((site_specs cfg0 [("p.md", load1 "p.md")] []
          (sorted_tags_of (all_labels [("p.md", load1 "p.md")]))).filter
        (fun s => check_for_changes cfg0.full_rebuild fsFresh s.2 s.1)).map (fun s => s.1) :=
  generate_site_renders_eager_writes_lazy cfg0 fsFresh tpl0 ["p.md"] [] [] load1 load1
    [Ev.renderHome, Ev.renderPost "p.md", Ev.renderTag "a"]
    [("p.md", load1 "p.md")] (by decide) (by decide)

/-- A post whose raw `tags` string is `"ab"` — its label set is
`{"ab"}`. -/
def postAB : Post :=
  ⟨"body", [("title", "T"), ("date", "2024-01-01"), ("slug", "s"), ("tags", "ab")]⟩

/-- C3 counterexample: the tag page for `"a"` lists the post whose tags
string is `"ab"`, because the code tests `tag in metadata["tags"]`
(substring), although `"a"` is not a member of that post's label set
`{"ab"}`.  Listing is not equivalent to label-set membership. -/
theorem render_tag_page_substring_cex :
    posts_with_tag "a" [("p1.md", postAB)] = .ok [postAB.metadata] ∧
    ¬ ("a" ∈ post_labels "ab") ∧
    dictGet? postAB.metadata "tags" = some "ab" := by
  refine ⟨by decide, by decide, by decide⟩

/-- C3 (amended): a post is listed on the tag page for `L` if and only if
`L` occurs as a contiguous substring of the post's raw `tags` metadata
string (Python's `in` on strings), not iff `L` is in its label set. -/
theorem posts_with_tag_substring (tag : String) (posts : List (String × Post))
    (h : ∀ p ∈ posts, (dictGet? p.2.metadata "tags").isSome) :
    posts_with_tag tag posts =
      .ok ((posts.filter (fun p => strIn tag ((dictGet? p.2.metadata "tags").getD ""))).map
        (fun p => p.2.metadata)) := by
  induction posts with
  | nil => rfl
  | cons p rest ih =>
    obtain ⟨ts, hts⟩ := Option.isSome_iff_exists.mp (h p (List.mem_cons_self p rest))
    have hrest := ih (fun q hq => h q (List.mem_cons_of_mem p hq))
    simp only [posts_with_tag, bind, Except.bind]
    have hdg : dictGet p.2.metadata "tags" = .ok ts := by
      unfold dictGet
      rw [hts]
    rw [hdg, hrest]
    simp only [pure, Except.pure]
    rw [List.filter_cons]
    have hgetd : (dictGet? p.2.metadata "tags").getD "" = ts := by rw [hts]; rfl
    rw [hgetd]
    by_cases hin : strIn tag ts
    · simp [hin]
    · simp [hin]

/-- Witness for the amended C3 at a concrete one-post store. -/
theorem posts_with_tag_substring_witness :
    posts_with_tag "b" [("p1.md", postAB)] =
      .ok (([("p1.md", postAB)].filter
        (fun p => strIn "b" ((dictGet? p.2.metadata "tags").getD ""))).map
          (fun p => p.2.metadata)) :=
  posts_with_tag_substring "b" [("p1.md", postAB)] (by decide)

/-- Loader producing one well-formed post whose `tags` string is empty. -/
def loadEmptyTags : String → Post := fun _ =>
  ⟨"body", [("title", "T"), ("date", "2024-01-01"), ("slug", "s"), ("tags", "")]⟩

/-- C4 counterexample: the code's label derivation does not drop empty
segments — a post with `tags = ""` contributes the label `""` (Python's
`"".split(",") == [""]`), and the build generates a tag page for the
empty string (`output/tags/.html`), contrary to the claim. -/
theorem empty_tags_label_page_cex :
    post_labels "" = [""] ∧
    labelsOf_spec "" = [] ∧
    generate_site cfg0 fsNone tpl0 ["p.md"] [] [] loadEmptyTags loadEmptyTags =
      .ok [Ev.renderHome, Ev.write "output/index.html" "", Ev.renderPost "p.md",
        Ev.write "output/posts/s.html" "", Ev.renderTag "",
        Ev.write "output/tags/.html" ""] ∧
    Ev.renderTag "" ∈ [Ev.renderHome, Ev.write "output/index.html" "", Ev.renderPost "p.md",
        Ev.write "output/posts/s.html" "", Ev.renderTag "",
        Ev.write "output/tags/.html" ""] := by
  refine ⟨rfl, rfl, by decide, by decide⟩

/-- C4 (amended): the label list of a post is the comma-split of its
`tags` string with each segment trimmed, empty segments kept — the
spec's label set is its restriction to nonempty segments; every label so
derived (including `""` from `tags = ""`) gets a tag page rendered in a
successful run. -/
theorem labels_keep_empty_and_empty_page (cfg : Config) (fs : FS) (T : Templates)
    (pl gl sl : List String) (lp lg : String → Post) (t : List Ev)
    (posts : List (String × Post))
    (hs : sort_posts (get_posts pl lp) = .ok posts)
    (h : generate_site cfg fs T pl gl sl lp lg = .ok t) :
    (∀ tags : String, labelsOf_spec tags = (post_labels tags).filter (fun s => s ≠ "")) ∧
    post_labels "" = [""] ∧
    (∀ p ∈ posts, ∀ ts, dictGet? p.2.metadata "tags" = some ts →
      ∀ L ∈ post_labels ts, L ∈ renderTags t) := by
  refine ⟨fun tags => rfl, rfl, ?_⟩
  obtain ⟨posts2, h1, h2, h3, h4⟩ := generate_site_ok h
  injection (hs.symm.trans h1) with he
  rw [← he] at h3
  intro p hp ts hts L hL
  rw [h3, sorted_tags_of_mem]
  refine List.mem_flatMap.mpr ⟨p, hp, ?_⟩
  rw [hts]
  simpa using hL

/-- Witness for the amended C4: on the concrete empty-tags site the label
`""` indeed appears among the rendered tag pages. -/
theorem labels_keep_empty_and_empty_page_witness :
    "" ∈ renderTags [Ev.renderHome, Ev.write "output/index.html" "", Ev.renderPost "p.md",
      Ev.write "output/posts/s.html" "", Ev.renderTag "", Ev.write "output/tags/.html" ""] :=
  (labels_keep_empty_and_empty_page cfg0 fsNone tpl0 ["p.md"] [] []
      loadEmptyTags loadEmptyTags
      [Ev.renderHome, Ev.write "output/index.html" "", Ev.renderPost "p.md",
        Ev.write "output/posts/s.html" "", Ev.renderTag "", Ev.write "output/tags/.html" ""]
      [("p.md", loadEmptyTags "p.md")] (by decide) (by decide)).2.2
    ("p.md", loadEmptyTags "p.md") (by decide) "" (by decide) "" (by decide)

theorem date_keys_snd {posts : List (String × Post)} {keyed : List (Date × (String × Post))}
    (h : date_keys posts = .ok keyed) : keyed.map (fun x => x.2) = posts := by
  induction posts generalizing keyed with
  | nil => simp only [date_keys] at h; cases h; rfl
  | cons p rest ih =>
    simp only [date_keys, bind, Except.bind] at h
    cases hd : get_post_date p with
    | error e => rw [hd] at h; cases h
    | ok d =>
      rw [hd] at h
      cases hr : date_keys rest with
      | error e => rw [hr] at h; cases h
      | ok r =>
        rw [hr] at h
        simp only [pure, Except.pure, Except.ok.injEq] at h
        rw [← h]
        simp [ih hr]

/-- Loader giving every post the same date, so that sorting is decided by
ties alone. -/
def loadEq : String → Post := fun f =>
  ⟨"body", [("title", "T"), ("date", "2024-01-01"), ("slug", f), ("tags", "x")]⟩

/-- C5 counterexample: with a directory listing `["b.md", "a.md"]` (a
legal `os.listdir` order — nothing in the loader sorts it) and equal
dates, the sorted sequence keeps `b.md` before `a.md`, although
lexicographically `a.md < b.md`.  Ties follow the arbitrary listing
order, not lexicographic identity order. -/
theorem sort_posts_tie_not_lex_cex :
    sort_posts (get_posts ["b.md", "a.md"] loadEq) =
      .ok [("b.md", loadEq "b.md"), ("a.md", loadEq "a.md")] ∧
    get_post_date ("b.md", loadEq "b.md") = .ok (2024, 1, 1) ∧
    get_post_date ("a.md", loadEq "a.md") = .ok (2024, 1, 1) ∧
    strLt "a.md" "b.md" = true := by
  refine ⟨by decide, by decide, by decide, by decide⟩

/-- C5 (amended): when every post's date parses, sorting succeeds and
produces a permutation of the posts whose parsed dates are non-increasing;
posts with equal dates keep their load order (the arbitrary directory
listing order — not necessarily lexicographic, since the loader never
sorts the listing). -/
theorem sort_posts_desc_stable (posts : List (String × Post))
    (keyed : List (Date × (String × Post)))
    (hk : date_keys posts = .ok keyed) :
    sort_posts posts = .ok ((sortBy (fun x y => dateLt x.1 y.1) keyed).map (fun x => x.2)) ∧
    keyed.map (fun x => x.2) = posts ∧
    (sortBy (fun x y => dateLt x.1 y.1) keyed).Pairwise (fun a b => dateLt a.1 b.1 = false) ∧
    (∀ d : Date, (sortBy (fun x y => dateLt x.1 y.1) keyed).filter (fun x => x.1 == d) =
      keyed.filter (fun x => x.1 == d)) ∧
    ((sortBy (fun x y => dateLt x.1 y.1) keyed).map (fun x => x.2)).Perm posts := by
  refine ⟨?_, date_keys_snd hk, ?_, ?_, ?_⟩
  · simp only [sort_posts, bind, Except.bind, hk]
    rfl
  · refine sortBy_pairwise ?_ ?_ ?_ keyed
    · intro a b h
      exact dateLt_asymm h
    · intro a b h
      exact h
    · intro a b c h1 h2
      exact dateLt_false_trans h1 h2
  · intro d
    refine sortBy_filter ?_ keyed
    intro x y hx hy
    have hxd : x.1 = d := by simpa using hx
    have hyd : y.1 = d := by simpa using hy
    rw [hxd, hyd]
    exact dateLt_irrefl d
  · have hperm := (sortBy_perm (fun x y => dateLt x.1 y.1) keyed).map (fun x => x.2)
    rw [date_keys_snd hk] at hperm
    exact hperm

/-- Witness for the amended C5 on the two-post equal-date store. -/
theorem sort_posts_desc_stable_witness :
    sort_posts [("b.md", loadEq "b.md"), ("a.md", loadEq "a.md")] =
      .ok ((sortBy (fun x y => dateLt x.1 y.1)
        [((2024, 1, 1), ("b.md", loadEq "b.md")),
          ((2024, 1, 1), ("a.md", loadEq "a.md"))]).map (fun x => x.2)) :=
  (sort_posts_desc_stable [("b.md", loadEq "b.md"), ("a.md", loadEq "a.md")]
    [((2024, 1, 1), ("b.md", loadEq "b.md")), ((2024, 1, 1), ("a.md", loadEq "a.md"))]
    (by decide)).1

/-- Loader producing two well-formed posts: `p1.md` tagged `a` (newer)
and `p2.md` tagged `b` (older). -/
def loadTwoTags : String → Post := fun f =>
  if f = "p1.md" then
    ⟨"body", [("title", "T1"), ("date", "2024-02-01"), ("slug", "s1"), ("tags", "a")]⟩
  else
    ⟨"body", [("title", "T2"), ("date", "2024-01-01"), ("slug", "s2"), ("tags", "b")]⟩

/-- C7 counterexample: with posts `p1.md` (tags `a`) and `p2.md` (tags
`b`), the dependency list the build uses for every tag page — including
the page for label `a` — contains `posts/p2.md`, although `p2.md` does
not carry label `a`.  The dependency set is template + layout + ALL
posts, not just the posts carrying the label. -/
theorem tag_page_sources_all_posts_cex :
    tag_page_sources cfg0 [("p1.md", loadTwoTags "p1.md"), ("p2.md", loadTwoTags "p2.md")] =
      ["templates/tag.html", "templates/layout.html", "posts/p1.md", "posts/p2.md"] ∧
    post_labels "b" = ["b"] ∧
    ¬ ("a" ∈ post_labels "b") ∧
    generate_site cfg0 fsNone tpl0 ["p1.md", "p2.md"] [] [] loadTwoTags loadTwoTags =
      .ok [Ev.renderHome, Ev.write "output/index.html" "",
        Ev.renderPost "p1.md", Ev.write "output/posts/s1.html" "",
        Ev.renderPost "p2.md", Ev.write "output/posts/s2.html" "",
        Ev.renderTag "a", Ev.write "output/tags/a.html" "",
        Ev.renderTag "b", Ev.write "output/tags/b.html" ""] := by
  refine ⟨by decide, by decide, by decide, by decide⟩

/-- C7 (amended): a successful run renders exactly one tag page per
distinct label, in ascending lexicographic label order; the dependency
list of every tag page is {tag template, layout template} together with
the source path of EVERY post (whether or not it carries the label). -/
theorem tag_pages_one_per_label_sorted_all_posts_deps (cfg : Config) (fs : FS)
    (T : Templates) (pl gl sl : List String) (lp lg : String → Post) (t : List Ev)
    (posts : List (String × Post))
    (hs : sort_posts (get_posts pl lp) = .ok posts)
    (h : generate_site cfg fs T pl gl sl lp lg = .ok t) :
    renderTags t = sorted_tags_of (all_labels posts) ∧
    (sorted_tags_of (all_labels posts)).Nodup ∧
    (sorted_tags_of (all_labels posts)).Pairwise (fun a b => strLt a b = true) ∧
    (∀ L, L ∈ sorted_tags_of (all_labels posts) ↔
      ∃ p ∈ posts, L ∈ post_labels ((dictGet? p.2.metadata "tags").getD "")) ∧
    (∀ p ∈ posts, pjoin cfg.posts_dir p.1 ∈ tag_page_sources cfg posts) := by
  obtain ⟨posts2, h1, h2, h3, h4⟩ := generate_site_ok h
  injection (hs.symm.trans h1) with he
  rw [← he] at h3
  refine ⟨h3, sorted_tags_of_nodup _, sorted_tags_of_sorted _, ?_, ?_⟩
  · intro L
    rw [sorted_tags_of_mem]
    exact List.mem_flatMap
  · intro p hp
    unfold tag_page_sources
    refine List.mem_append.mpr (Or.inr ?_)
    exact List.mem_map.mpr ⟨p, hp, rfl⟩

/-- Witness for the amended C7: on the two-post site, `posts/p1.md` is in
the tag-page dependency list, and the rendered tag pages are exactly the
sorted distinct labels. -/
theorem tag_pages_one_per_label_sorted_all_posts_deps_witness :
    pjoin cfg0.posts_dir "p1.md" ∈ tag_page_sources cfg0
      [("p1.md", loadTwoTags "p1.md"), ("p2.md", loadTwoTags "p2.md")] :=
  (tag_pages_one_per_label_sorted_all_posts_deps cfg0 fsNone tpl0 ["p1.md", "p2.md"] [] []
      loadTwoTags loadTwoTags
      [Ev.renderHome, Ev.write "output/index.html" "",
        Ev.renderPost "p1.md", Ev.write "output/posts/s1.html" "",
        Ev.renderPost "p2.md", Ev.write "output/posts/s2.html" "",
        Ev.renderTag "a", Ev.write "output/tags/a.html" "",
        Ev.renderTag "b", Ev.write "output/tags/b.html" ""]
      [("p1.md", loadTwoTags "p1.md"), ("p2.md", loadTwoTags "p2.md")]
      (by decide) (by decide)).2.2.2.2
    ("p1.md", loadTwoTags "p1.md") (by decide)

/-- C8 counterexample: a post with `title`, `date` and `slug` present but
`tags` absent fails with a bare `KeyError("tags")` — the error text
`"'tags'"` names the key but not the post's identity `p.md`. -/
theorem render_post_page_keyerror_no_identity_cex :
    render_post_page tpl0 "p.md"
        ⟨"body", [("title", "T"), ("date", "2024-01-01"), ("slug", "s")]⟩ =
      .error (.keyError "tags") ∧
    errText (.keyError "tags") = "\x27tags\x27" ∧
    strIn "p.md" (errText (.keyError "tags")) = false := by
  refine ⟨by decide, rfl, by decide⟩

/-- C8 (amended): the explicit required-key check of `render_post_page`
covers `title`, `date`, `slug` in that order with a `ValueError` naming
the key and the post identity; a missing `tags` (with those three
present) instead raises a bare `KeyError` naming only the key. -/
theorem render_post_page_missing_key_errors (T : Templates) (k : String) (p : Post) :
    (dictGet? p.metadata "title" = none →
      render_post_page T k p =
        .error (.valueError ("Missing required metadata \x27title\x27 in " ++ k))) ∧
    ((dictGet? p.metadata "title").isSome → dictGet? p.metadata "date" = none →
      render_post_page T k p =
        .error (.valueError ("Missing required metadata \x27date\x27 in " ++ k))) ∧
    ((dictGet? p.metadata "title").isSome → (dictGet? p.metadata "date").isSome →
      (dictGet? p.metadata "slug").isSome → dictGet? p.metadata "tags" = none →
      render_post_page T k p = .error (.keyError "tags")) := by
  refine ⟨?_, ?_, ?_⟩
  · intro h
    simp [render_post_page, List.find?, h]
  · intro h1 h2
    obtain ⟨tv, htv⟩ := Option.isSome_iff_exists.mp h1
    simp [render_post_page, List.find?, htv, h2]
  · intro h1 h2 h3 h4
    obtain ⟨tv, htv⟩ := Option.isSome_iff_exists.mp h1
    obtain ⟨dv, hdv⟩ := Option.isSome_iff_exists.mp h2
    obtain ⟨sv, hsv⟩ := Option.isSome_iff_exists.mp h3
    simp [render_post_page, List.find?, htv, hdv, hsv, h4, dictGet, bind, Except.bind]

/-- Witness for the amended C8: a post missing only `title` and a post
missing only `tags`, at concrete metadata. -/
theorem render_post_page_missing_key_errors_witness :
    render_post_page tpl0 "w.md" ⟨"body", [("date", "2024-01-01")]⟩ =
      .error (.valueError ("Missing required metadata \x27title\x27 in " ++ "w.md")) ∧
    render_post_page tpl0 "w.md" ⟨"body", [("title", "T"), ("date", "D"), ("slug", "s")]⟩ =
      .error (.keyError "tags") :=
  ⟨(render_post_page_missing_key_errors tpl0 "w.md" ⟨"body", [("date", "2024-01-01")]⟩).1
      (by decide),
    (render_post_page_missing_key_errors tpl0 "w.md"
        ⟨"body", [("title", "T"), ("date", "D"), ("slug", "s")]⟩).2.2
      (by decide) (by decide) (by decide) (by decide)⟩

/-- C10 counterexample: a post whose metadata lacks `slug` (here: lacks
everything) fails with an error naming `title`, not `slug` — the claim
that the error names `slug` fails when an earlier required key is also
missing. -/
theorem render_post_page_missing_slug_cex :
    dictGet? ([] : Metadata) "slug" = none ∧
    render_post_page tpl0 "p.md" ⟨"body", []⟩ =
      .error (.valueError "Missing required metadata \x27title\x27 in p.md") ∧
    strIn "slug" (errText (.valueError "Missing required metadata \x27title\x27 in p.md")) =
      false := by
  refine ⟨rfl, by decide, by decide⟩

/-- C10 (amended): a post whose metadata lacks `slug` always fails to
render (there is no fallback to the identity with its extension
stripped); when `title` and `date` are present the error is a
`ValueError` naming `slug` and the post identity. -/
theorem render_post_page_missing_slug (T : Templates) (k : String) (p : Post) :
    (dictGet? p.metadata "slug" = none →
      ∃ e, render_post_page T k p = .error e) ∧
    ((dictGet? p.metadata "title").isSome → (dictGet? p.metadata "date").isSome →
      dictGet? p.metadata "slug" = none →
      render_post_page T k p =
        .error (.valueError ("Missing required metadata \x27slug\x27 in " ++ k))) := by
  constructor
  · intro h
    cases h1 : dictGet? p.metadata "title" with
    | none =>
      exact ⟨.valueError ("Missing required metadata \x27title\x27 in " ++ k),
        by simp [render_post_page, List.find?, h1]⟩
    | some tv =>
      cases h2 : dictGet? p.metadata "date" with
      | none =>
        exact ⟨.valueError ("Missing required metadata \x27date\x27 in " ++ k),
          by simp [render_post_page, List.find?, h1, h2]⟩
      | some dv =>
        exact ⟨.valueError ("Missing required metadata \x27slug\x27 in " ++ k),
          by simp [render_post_page, List.find?, h1, h2, h]⟩
  · intro h1 h2 h
    obtain ⟨tv, htv⟩ := Option.isSome_iff_exists.mp h1
    obtain ⟨dv, hdv⟩ := Option.isSome_iff_exists.mp h2
    simp [render_post_page, List.find?, htv, hdv, h]

/-- Witness for the amended C10 at concrete metadata with `title` and
`date` present and `slug` absent. -/
theorem render_post_page_missing_slug_witness :
    render_post_page tpl0 "w2.md" ⟨"body", [("title", "T"), ("date", "D")]⟩ =
      .error (.valueError ("Missing required metadata \x27slug\x27 in " ++ "w2.md")) :=
  (render_post_page_missing_slug tpl0 "w2.md" ⟨"body", [("title", "T"), ("date", "D")]⟩).2
    (by decide) (by decide) (by decide)

end Ssg
